import Mathlib

/-!
Verification of the epub-creator repository (`src/epub-creator.js` and its
NavMapBuilder companion) against its natural-language specification.

The JavaScript source is shallowly embedded: pure functions become Lean
functions, the mutable identifier registry becomes an explicit association
list threaded through the folds, thrown `Error`s become `Except String`
(carrying the exact message strings of the source), and the two
nondeterministic inputs (`uuid.v4()` and `new Date().toJSON()`) become
explicit parameters.
-/

/-- The apostrophe character, used to build error messages of the source
(such as the media-type error) without a literal apostrophe in the file. -/
def apos : String := String.singleton (Char.ofNat 39)

/-- Model of JavaScript `String.prototype.lastIndexOf(c)` on the character
list of the string: index of the last occurrence, `none` when absent. -/
def lastIdx (c : Char) : List Char → Option Nat
  | [] => none
  | x :: xs =>
    match lastIdx c xs with
    | some i => some (i + 1)
    | none => if x = c then some 0 else none

/-- `lastIndexOf` returning `-1` for "not found", as in JavaScript. -/
def jsLastIndexOf (s : String) (c : Char) : Int :=
  match lastIdx c s.toList with
  | some i => (i : Int)
  | none => -1

/-- Model of JavaScript `String.prototype.substring(i)` (suffix from
character index `i`; negative `i` is clamped to `0`). -/
def jsSubstring (s : String) (i : Int) : String :=
  String.mk (s.toList.drop i.toNat)

/-- Error message thrown by `getMediaTypeFromFilename` (source line 91). -/
def cantGuessMsg (path : String) : String :=
  "Can" ++ apos ++ "t guess media type of file \"" ++ path ++ "\""

/-- `EPUBCreator.getMediaTypeFromFilename` (source lines 74-93): take the
substring after the last dot and switch on it; unknown extensions throw. -/
def getMediaTypeFromFilename (path : String) : Except String String :=
  let ext := jsSubstring path (jsLastIndexOf path '.' + 1)
  if ext = "html" then .ok "application/xhtml+xml"
  else if ext = "xhtml" then .ok "application/xhtml+xml"
  else if ext = "png" then .ok "image/png"
  else if ext = "gif" then .ok "image/gif"
  else if ext = "jpg" then .ok "image/jpeg"
  else if ext = "svg" then .ok "image/svg+xml"
  else if ext = "css" then .ok "text/css"
  else .error (cantGuessMsg path)

/-- Claim-side extension extractor, following the words of claim C10: the
substring after the last dot of the path; when the path contains no dot
the entire path serves as the extension. -/
def extAfterLastDot : List Char → List Char
  | [] => []
  | c :: rest =>
    if '.' ∈ rest then extAfterLastDot rest
    else if c = '.' then rest
    else c :: extAfterLastDot rest

/-- Claim-side media-type table: the fixed case-sensitive extension set. -/
def mediaTypeOfExt (ext : String) : Option String :=
  if ext = "html" then some "application/xhtml+xml"
  else if ext = "xhtml" then some "application/xhtml+xml"
  else if ext = "png" then some "image/png"
  else if ext = "gif" then some "image/gif"
  else if ext = "jpg" then some "image/jpeg"
  else if ext = "svg" then some "image/svg+xml"
  else if ext = "css" then some "text/css"
  else none

/-- Number of leading characters discarded by the source's
`substring(lastIndexOf('.') + 1)` computation. -/
def dropCount (cs : List Char) : Nat :=
  match lastIdx '.' cs with
  | some i => i + 1
  | none => 0

lemma lastIdx_eq_none_iff (c : Char) (cs : List Char) :
    lastIdx c cs = none ↔ c ∉ cs := by
  induction cs with
  | nil => simp [lastIdx]
  | cons x xs ih =>
    simp only [lastIdx, List.mem_cons]
    cases h : lastIdx c xs with
    | some i =>
      have hmem : c ∈ xs := by
        by_contra hn
        rw [ih.mpr hn] at h
        cases h
      simp [hmem]
    | none =>
      have hn : c ∉ xs := ih.mp h
      by_cases hx : x = c
      · simp [hx]
      · have hx' : ¬ c = x := fun hh => hx hh.symm
        simp [hx, hn, hx']

lemma extAfterLastDot_of_not_mem {cs : List Char} (h : '.' ∉ cs) :
    extAfterLastDot cs = cs := by
  induction cs with
  | nil => rfl
  | cons x xs ih =>
    simp only [List.mem_cons, not_or] at h
    have hx : ¬ x = '.' := fun hh => h.1 hh.symm
    simp [extAfterLastDot, h.2, ih h.2, hx]

lemma jsSubstring_toNat (s : String) :
    (jsLastIndexOf s '.' + 1).toNat = dropCount s.toList := by
  unfold jsLastIndexOf dropCount
  cases h : lastIdx '.' s.toList with
  | some i =>
    simp only [h]
    omega
  | none => simp [h]

lemma drop_dropCount_eq_extAfterLastDot (cs : List Char) :
    cs.drop (dropCount cs) = extAfterLastDot cs := by
  induction cs with
  | nil => rfl
  | cons x xs ih =>
    unfold dropCount extAfterLastDot
    simp only [lastIdx]
    cases h : lastIdx '.' xs with
    | some i =>
      have hmem : '.' ∈ xs := by
        by_contra hn
        rw [(lastIdx_eq_none_iff '.' xs).mpr hn] at h
        cases h
      have hdc : dropCount xs = i + 1 := by unfold dropCount; rw [h]
      have : (x :: xs).drop (i + 1 + 1) = xs.drop (i + 1) := rfl
      simp only [hmem, if_true, this]
      rw [← hdc, ih]
    | none =>
      have hnmem : '.' ∉ xs := (lastIdx_eq_none_iff '.' xs).mp h
      by_cases hx : x = '.'
      · simp [hx, hnmem]
      · have hdc : dropCount xs = 0 := by
          unfold dropCount
          rw [h]
        simp only [hnmem, if_false, hx, List.drop_zero]
        rw [extAfterLastDot_of_not_mem hnmem]

/-- The extension the source actually switches on equals the claim-side
"substring after the last dot" extractor. -/
lemma source_ext_eq_spec_ext (path : String) :
    jsSubstring path (jsLastIndexOf path '.' + 1)
      = String.mk (extAfterLastDot path.toList) := by
  unfold jsSubstring
  rw [jsSubstring_toNat, drop_dropCount_eq_extAfterLastDot]

/-! ## Metadata model (source lines 44-46, 51-70, 116-142) -/

/-- A JSML node: either literal text or an element
`[tag, attributes?, ...children]` with an (ordered) attribute list. -/
inductive Jsml where
  | text (s : String)
  | elem (tag : String) (attrs : List (String × String)) (children : List Jsml)

/-- `JSMLUtils.getChildren`: the child list of an element (the source only
applies it to elements found by tag name, never to text nodes). -/
def Jsml.getChildren : Jsml → List Jsml
  | .text _ => []
  | .elem _ _ cs => cs

/-- The predicate of the `find` in `getElementTextByName` (source line 65):
`([tag]) => tag === name`.  For a text node the destructuring yields its
first character, which never equals the multi-character element names the
source queries, so text nodes never match. -/
def Jsml.tagIs (name : String) : Jsml → Bool
  | .text _ => false
  | .elem tag _ _ => tag = name

/-- `getElementTextByName` (source lines 64-70): find the first element
with the given tag and return its first child; `none` both when no element
matches and when the matching element has no children (JS `undefined`). -/
def getElementTextByName (name : String) (jsml : List Jsml) : Option Jsml :=
  match jsml.find? (Jsml.tagIs name) with
  | none => none
  | some e => e.getChildren.head?

/-- The `simpleMetadata` option object.  The source schema (lines 54-58)
only declares `title`, `author` and `language`; the README and the unit
tests additionally use `description`, `isbn` and `tags`, so the model
carries all six fields to let the claims about them be stated. -/
structure SimpleMetadataOptions where
  title : Option String := none
  author : Option String := none
  language : Option String := none
  description : Option String := none
  isbn : Option String := none
  tags : Option (List String) := none

/-- JavaScript `x || dflt` for an optional string: `undefined` and the
empty string are falsy. -/
def jsOr (x : Option String) (dflt : String) : String :=
  match x with
  | none => dflt
  | some s => if s = "" then dflt else s

def DEFAULT_LANGUAGE : String := "en"

def DEFAULT_TITLE : String := "Untitled"

/-- `prepareMetadata` (source lines 116-138).  `uuid` models the value of
`uuid.v4()` and `now` the value of `new Date().toJSON()` (an ISO-8601
timestamp), both of which are nondeterministic in the source.  With the
typed `Jsml` input `validateJSML` always succeeds, so the validation step
(line 117) is not represented. -/
def prepareMetadata (metadata : List Jsml) (simpleMetadata : SimpleMetadataOptions)
    (uuid now : String) : List Jsml :=
  let extra1 :=
    if (getElementTextByName "dc:identifier" metadata).isNone then
      [Jsml.elem "dc:identifier" [("id", "BookId"), ("opf:scheme", "uuid")]
        [.text ("urn:uuid:" ++ uuid)]]
    else []
  let extra2 :=
    if (getElementTextByName "dc:date" metadata).isNone then
      [Jsml.elem "dc:date" [] [.text now]]
    else []
  let extra3 :=
    if (getElementTextByName "dc:language" metadata).isNone then
      [Jsml.elem "dc:language" [] [.text (jsOr simpleMetadata.language DEFAULT_LANGUAGE)]]
    else []
  let extra4 :=
    if (getElementTextByName "dc:title" metadata).isNone then
      [Jsml.elem "dc:title" [] [.text (jsOr simpleMetadata.title DEFAULT_TITLE)]]
    else []
  let extra5 :=
    if (getElementTextByName "dc:creator" metadata).isNone ∧ simpleMetadata.author.isSome then
      [Jsml.elem "dc:creator" [("opf:role", "aut")]
        [.text (simpleMetadata.author.getD "")]]
    else []
  metadata ++ (extra1 ++ extra2 ++ extra3 ++ extra4 ++ extra5)

/-- `getFromMetadata` (source lines 140-142), applied to a metadata list. -/
def getFromMetadata (elementName : String) (metadata : List Jsml) : Option Jsml :=
  getElementTextByName elementName metadata

/-- Number of elements of the list whose tag is `name`. -/
def countTag (name : String) (jsml : List Jsml) : Nat :=
  (jsml.filter (Jsml.tagIs name)).length

/-- Does the element carry the source's UUID-scheme marker
(`opf:scheme` attribute with the value the source writes)? -/
def Jsml.isUuidSchemeIdentifier : Jsml → Bool
  | .text _ => false
  | .elem tag attrs _ => tag = "dc:identifier" && attrs.any (fun a => a.1 = "opf:scheme" && a.2 = "uuid")

/-- Does the element carry an ISBN-scheme marker? -/
def Jsml.isIsbnSchemeIdentifier : Jsml → Bool
  | .text _ => false
  | .elem tag attrs _ => tag = "dc:identifier" && attrs.any (fun a => a.1 = "opf:scheme" && a.2 = "ISBN")

/-- Joi `Joi.string()`: accepts only non-empty strings when present. -/
def optStringOk : Option String → Bool
  | none => true
  | some s => s ≠ ""

/-- The `simpleMetadata` part of the options schema (source lines 54-58).
A Joi object rejects keys it does not declare, so `description`, `isbn`
and `tags` make validation fail. -/
def validSimpleMetadata (s : SimpleMetadataOptions) : Bool :=
  optStringOk s.title && optStringOk s.author && optStringOk s.language &&
  s.description.isNone && s.isbn.isNone && s.tags.isNone

/-! ## Manifest builder and identifier registry (source lines 35-49, 144-150, 170-192) -/

def TOC_ID : String := "id-toc"

def TOC_FILENAME : String := "toc.ncx"

def TOC_MEDIA_TYPE : String := "application/x-dtbncx+xml"

def COVER_PAGE_ID : String := "id-cover"

def COVER_PAGE_FILENAME : String := "cover-page.html"

def COVER_PAGE_MEDIA_TYPE : String := "application/xhtml+xml"

/-- The `FORMATTER` (source line 49): `minimumIntegerDigits: 6`, no
grouping — decimal digits of the number, left-padded with zeros to at
least six digits. -/
def pad6 (n : Nat) : String :=
  let s := Nat.repr n
  String.mk (List.replicate (6 - s.length) '0') ++ s

/-- `path.join(dirPath, fileName)` for the inputs the walker produces
(plain relative segments, no `.`/`..` normalization involved). -/
def pathJoin (a b : String) : String := a ++ "/" ++ b

/-- One `(dirPath, subdirNames, fileNames)` triple yielded by the external
directory walker. -/
structure WalkTriple where
  dirPath : String
  subdirNames : List String
  fileNames : List String

/-- A manifest `item` element: `['item', { id, href, 'media-type' }]`. -/
structure Item where
  id : String
  href : String
  mediaType : String
deriving DecidableEq

/-- The `fileName2id` JavaScript `Map`, as an insertion-ordered
association list (a JS `Map` keeps keys unique). -/
abbrev Registry := List (String × String)

/-- JS `Map.prototype.set`: replace the value of an existing key in
place, otherwise append the new pair. -/
def mapSet : Registry → String → String → Registry
  | [], k, v => [(k, v)]
  | (k', v') :: rest, k, v =>
    if k' = k then (k, v) :: rest else (k', v') :: mapSet rest k v

/-- JS `Map.prototype.get` (returning `none` for `undefined`). -/
def mapGet : Registry → String → Option String
  | [], _ => none
  | (k', v') :: rest, k => if k' = k then some v' else mapGet rest k

/-- Error message thrown by `getFileId` (source line 147). -/
def fileNotFoundMsg (name : String) : String :=
  "File not found in manifest: \"" ++ name ++ "\""

/-- `getFileId` (source lines 144-150): registry lookup that throws when
the name is unmapped. -/
def getFileId (reg : Registry) (name : String) : Except String String :=
  match mapGet reg name with
  | none => .error (fileNotFoundMsg name)
  | some id => .ok id

/-- The content-root-relative path recorded for a discovered file
(source line 186): `join(dirPath, fileName).substring(contentDir.length + 1)`. -/
def relHref (contentDir dirPath fileName : String) : String :=
  jsSubstring (pathJoin dirPath fileName) ((contentDir.length : Int) + 1)

/-- The per-file loop body of `buildManifest` (source lines 184-189),
over the files of one directory, threading the counter and the registry.
The registry entry is recorded before the media type of the file is
inspected, as in the source evaluation order. -/
def addFiles (contentDir dirPath : String) :
    List String → Nat → Registry → Except String (List Item × Registry × Nat)
  | [], counter, reg => .ok ([], reg, counter)
  | f :: rest, counter, reg =>
    let id := "id-" ++ pad6 counter
    let href := relHref contentDir dirPath f
    let reg' := mapSet reg href id
    match getMediaTypeFromFilename f with
    | .error e => .error e
    | .ok mt =>
      match addFiles contentDir dirPath rest (counter + 1) reg' with
      | .error e => .error e
      | .ok (items, reg'', c') => .ok (⟨id, href, mt⟩ :: items, reg'', c')

/-- The walk loop of `buildManifest` (source lines 182-190). -/
def manifestWalk (contentDir : String) :
    List WalkTriple → Nat → Registry → Except String (List Item × Registry × Nat)
  | [], counter, reg => .ok ([], reg, counter)
  | t :: ts, counter, reg =>
    match addFiles contentDir t.dirPath t.fileNames counter reg with
    | .error e => .error e
    | .ok (items, reg', c') =>
      match manifestWalk contentDir ts c' reg' with
      | .error e => .error e
      | .ok (items', reg'', c'') => .ok (items ++ items', reg'', c'')

/-- `buildManifest` (source lines 170-192): the reserved TOC item, the
reserved cover-page item when a cover is configured, then one item per
walked file; returns the items together with the populated registry. -/
def buildManifest (contentDir : String) (cover : Option String)
    (walk : List WalkTriple) : Except String (List Item × Registry) :=
  let reserved := Item.mk TOC_ID TOC_FILENAME TOC_MEDIA_TYPE ::
    (match cover with
     | some _ => [Item.mk COVER_PAGE_ID COVER_PAGE_FILENAME COVER_PAGE_MEDIA_TYPE]
     | none => [])
  match manifestWalk contentDir walk 1 [] with
  | .error e => .error e
  | .ok (items, reg, _) => .ok (reserved ++ items, reg)

/-- The `(dirPath, fileName)` pairs of a walk, in visitation order. -/
def walkFiles (walk : List WalkTriple) : List (String × String) :=
  walk.flatMap (fun t => t.fileNames.map (fun f => (t.dirPath, f)))

/-- Single-list reformulation of the nested manifest loops, used to state
and prove the characterization lemmas. -/
def processFiles (contentDir : String) :
    List (String × String) → Nat → Registry → Except String (List Item × Registry × Nat)
  | [], counter, reg => .ok ([], reg, counter)
  | (d, f) :: rest, counter, reg =>
    let id := "id-" ++ pad6 counter
    let href := relHref contentDir d f
    let reg' := mapSet reg href id
    match getMediaTypeFromFilename f with
    | .error e => .error e
    | .ok mt =>
      match processFiles contentDir rest (counter + 1) reg' with
      | .error e => .error e
      | .ok (items, reg'', c') => .ok (⟨id, href, mt⟩ :: items, reg'', c')

/-- The media type of a supported file (the `.toOption.getD` collapse is
only ever used under a hypothesis that the extension is supported). -/
def mediaTypeD (f : String) : String :=
  ((getMediaTypeFromFilename f).toOption).getD ""

/-! ## Media-type characterization -/

/-- The source's media-type switch, re-expressed through the claim-side
extension extractor and table. -/
lemma gmt_eq_table (path : String) :
    getMediaTypeFromFilename path =
      match mediaTypeOfExt (String.mk (extAfterLastDot path.toList)) with
      | some m => .ok m
      | none => .error (cantGuessMsg path) := by
  unfold getMediaTypeFromFilename mediaTypeOfExt
  rw [source_ext_eq_spec_ext]
  split_ifs <;> simp_all

lemma gmt_error_eq {p e : String} (h : getMediaTypeFromFilename p = .error e) :
    e = cantGuessMsg p := by
  rw [gmt_eq_table] at h
  cases hm : mediaTypeOfExt (String.mk (extAfterLastDot p.toList)) with
  | some m => rw [hm] at h; cases h
  | none =>
    rw [hm] at h
    cases h
    rfl

lemma gmt_isOk_iff (p : String) :
    (getMediaTypeFromFilename p).isOk = true
      ↔ (mediaTypeOfExt (String.mk (extAfterLastDot p.toList))).isSome = true := by
  rw [gmt_eq_table]
  cases hm : mediaTypeOfExt (String.mk (extAfterLastDot p.toList)) <;> simp [Except.isOk, Except.toBool]

/-! ## Registry lemmas -/

lemma mapGet_mapSet (m : Registry) (k v p : String) :
    mapGet (mapSet m k v) p = if k = p then some v else mapGet m p := by
  induction m with
  | nil =>
    by_cases h : k = p <;> simp [mapSet, mapGet, h]
  | cons q rest ih =>
    obtain ⟨k', v'⟩ := q
    by_cases hk : k' = k
    · subst hk
      by_cases hp : k' = p <;> simp [mapSet, mapGet, hp]
    · by_cases hp : k' = p
      · subst hp
        have : ¬ k = k' := fun hh => hk hh.symm
        simp [mapSet, mapGet, hk, this]
      · simp [mapSet, mapGet, hk, hp, ih]

lemma mem_of_mapGet_eq_some {m : Registry} {p v : String}
    (h : mapGet m p = some v) : (p, v) ∈ m := by
  induction m with
  | nil => cases h
  | cons q rest ih =>
    obtain ⟨k', v'⟩ := q
    by_cases hp : k' = p
    · subst hp
      simp [mapGet] at h
      simp [h]
    · simp [mapGet, hp] at h
      exact List.mem_cons_of_mem _ (ih h)

lemma mapSet_of_fresh {m : Registry} {k : String} (v : String)
    (h : ∀ q ∈ m, q.1 ≠ k) : mapSet m k v = m ++ [(k, v)] := by
  induction m with
  | nil => rfl
  | cons q rest ih =>
    obtain ⟨k', v'⟩ := q
    have hk : k' ≠ k := h (k', v') (List.mem_cons_self _ _)
    simp [mapSet, hk]
    exact ih (fun q hq => h q (List.mem_cons_of_mem _ hq))

/-! ## Manifest-loop characterization -/

lemma processFiles_append (cd : String) (xs ys : List (String × String))
    (c : Nat) (reg : Registry) :
    processFiles cd (xs ++ ys) c reg =
      match processFiles cd xs c reg with
      | .error e => .error e
      | .ok (items, reg', c') =>
        match processFiles cd ys c' reg' with
        | .error e => .error e
        | .ok (items', reg'', c'') => .ok (items ++ items', reg'', c'') := by
  induction xs generalizing c reg with
  | nil =>
    simp only [List.nil_append, processFiles]
    cases h : processFiles cd ys c reg with
    | error e => rfl
    | ok r => obtain ⟨items', reg'', c''⟩ := r; rfl
  | cons p rest ih =>
    obtain ⟨d, f⟩ := p
    simp only [List.cons_append, processFiles]
    cases hm : getMediaTypeFromFilename f with
    | error e => rfl
    | ok mt =>
      simp only [List.append_eq]
      rw [ih]
      cases h1 : processFiles cd rest (c + 1) (mapSet reg (relHref cd d f) ("id-" ++ pad6 c)) with
      | error e => rfl
      | ok r1 =>
        obtain ⟨items, reg', c'⟩ := r1
        cases h2 : processFiles cd ys c' reg' with
        | error e => simp [h2]
        | ok r2 => obtain ⟨items', reg'', c''⟩ := r2; simp [h2]

lemma addFiles_eq_processFiles (cd d : String) (fs : List String)
    (c : Nat) (reg : Registry) :
    addFiles cd d fs c reg = processFiles cd (fs.map (fun f => (d, f))) c reg := by
  induction fs generalizing c reg with
  | nil => rfl
  | cons f rest ih =>
    simp only [List.map_cons, addFiles, processFiles]
    cases hm : getMediaTypeFromFilename f with
    | error e => rfl
    | ok mt => rw [ih]

lemma manifestWalk_eq_processFiles (cd : String) (ts : List WalkTriple)
    (c : Nat) (reg : Registry) :
    manifestWalk cd ts c reg = processFiles cd (walkFiles ts) c reg := by
  induction ts generalizing c reg with
  | nil => rfl
  | cons t rest ih =>
    have hflat : walkFiles (t :: rest)
        = t.fileNames.map (fun f => (t.dirPath, f)) ++ walkFiles rest := by
      simp [walkFiles]
    rw [hflat, processFiles_append]
    simp only [manifestWalk, addFiles_eq_processFiles]
    cases h1 : processFiles cd (t.fileNames.map (fun f => (t.dirPath, f))) c reg with
    | error e => rfl
    | ok r1 =>
      obtain ⟨items, reg', c'⟩ := r1
      dsimp only
      rw [ih]

/-- The registry built by a successful per-file pass, as a left fold. -/
lemma processFiles_ok_of_supported (cd : String) (files : List (String × String))
    (c : Nat) (reg : Registry)
    (h : ∀ p ∈ files, (getMediaTypeFromFilename p.2).isOk = true) :
    processFiles cd files c reg =
      .ok ((files.enumFrom c).map
             (fun p => Item.mk ("id-" ++ pad6 p.1) (relHref cd p.2.1 p.2.2) (mediaTypeD p.2.2)),
           (files.enumFrom c).foldl
             (fun r p => mapSet r (relHref cd p.2.1 p.2.2) ("id-" ++ pad6 p.1)) reg,
           c + files.length) := by
  induction files generalizing c reg with
  | nil => simp [processFiles]
  | cons p rest ih =>
    obtain ⟨d, f⟩ := p
    have hf : (getMediaTypeFromFilename f).isOk = true := h (d, f) (List.mem_cons_self _ _)
    simp only [processFiles]
    cases hm : getMediaTypeFromFilename f with
    | error e => rw [hm] at hf; cases hf
    | ok mt =>
      rw [ih (c + 1) _ (fun q hq => h q (List.mem_cons_of_mem _ hq))]
      have hmt : mediaTypeD f = mt := by unfold mediaTypeD; rw [hm]; rfl
      simp [List.enumFrom, hmt]
      omega

lemma processFiles_error_of_unsupported (cd : String) (files : List (String × String))
    (c : Nat) (reg : Registry)
    (h : ∃ p ∈ files, (getMediaTypeFromFilename p.2).isOk = false) :
    ∃ f, processFiles cd files c reg = .error (cantGuessMsg f) := by
  induction files generalizing c reg with
  | nil =>
    obtain ⟨p, hp, _⟩ := h
    cases hp
  | cons q rest ih =>
    obtain ⟨d, f⟩ := q
    cases hm : getMediaTypeFromFilename f with
    | error e =>
      refine ⟨f, ?_⟩
      have he := gmt_error_eq hm
      simp [processFiles, hm, he]
    | ok mt =>
      obtain ⟨p, hp, hbad⟩ := h
      rcases List.mem_cons.mp hp with hq | hq
      · subst hq
        rw [hm] at hbad
        cases hbad
      · obtain ⟨f', hf'⟩ := ih (c + 1)
          (mapSet reg (relHref cd d f) ("id-" ++ pad6 c)) ⟨p, hq, hbad⟩
        exact ⟨f', by simp [processFiles, hm, hf']⟩

lemma processFiles_mapGet_isSome (cd : String) (files : List (String × String)) :
    ∀ (c : Nat) (reg : Registry) (items : List Item) (reg' : Registry) (c' : Nat),
      processFiles cd files c reg = .ok (items, reg', c') →
      ∀ p, ((mapGet reg' p).isSome = true
        ↔ (mapGet reg p).isSome = true ∨ p ∈ files.map (fun q => relHref cd q.1 q.2)) := by
  induction files with
  | nil =>
    intro c reg items reg' c' h p
    simp only [processFiles] at h
    injection h with h
    injection h with h1 h2
    injection h2 with h2 h3
    subst h2
    simp
  | cons q rest ih =>
    obtain ⟨d, f⟩ := q
    intro c reg items reg' c' h p
    simp only [processFiles] at h
    cases hm : getMediaTypeFromFilename f with
    | error e => rw [hm] at h; cases h
    | ok mt =>
      rw [hm] at h
      cases hrec : processFiles cd rest (c + 1) (mapSet reg (relHref cd d f) ("id-" ++ pad6 c)) with
      | error e => rw [hrec] at h; cases h
      | ok r =>
        obtain ⟨i2, r2, c2⟩ := r
        rw [hrec] at h
        injection h with h
        injection h with h1 h2
        injection h2 with h2 h3
        subst h2
        have hstep := ih (c + 1) (mapSet reg (relHref cd d f) ("id-" ++ pad6 c)) i2 r2 c2 hrec p
        rw [hstep]
        rw [mapGet_mapSet]
        by_cases hp : relHref cd d f = p
        · simp [hp]
        · simp only [hp, if_false, List.map_cons, List.mem_cons]
          constructor
          · rintro (hs | hmem)
            · exact Or.inl hs
            · exact Or.inr (Or.inr hmem)
          · rintro (hs | (heq | hmem))
            · exact Or.inl hs
            · exact absurd heq.symm hp
            · exact Or.inr hmem

lemma foldl_mapSet_fresh (ps : List (String × String)) (reg : Registry)
    (hfresh : ∀ q ∈ ps, ∀ r ∈ reg, r.1 ≠ q.1)
    (hnodup : (ps.map Prod.fst).Nodup) :
    ps.foldl (fun r q => mapSet r q.1 q.2) reg = reg ++ ps := by
  induction ps generalizing reg with
  | nil => simp
  | cons q rest ih =>
    obtain ⟨k, v⟩ := q
    simp only [List.foldl_cons]
    rw [mapSet_of_fresh v (fun r hr => hfresh (k, v) (List.mem_cons_self _ _) r hr)]
    simp only [List.map_cons, List.nodup_cons] at hnodup
    rw [ih (reg ++ [(k, v)]) ?_ hnodup.2]
    · simp
    · intro q hq r hr
      rcases List.mem_append.mp hr with hr | hr
      · exact hfresh q (List.mem_cons_of_mem _ hq) r hr
      · simp at hr
        subst hr
        intro hk
        apply hnodup.1
        rw [show k = q.1 from hk]
        exact List.mem_map_of_mem Prod.fst hq

lemma enumFrom_map_snd_comp {α β : Type} (g : α → β) (l : List α) (n : Nat) :
    (l.enumFrom n).map (fun p => g p.2) = l.map g := by
  induction l generalizing n with
  | nil => rfl
  | cons x xs ih => simp [List.enumFrom, ih]

/-! ## Spine builder (source lines 222-229) -/

/-- The `forEach` over the declared spine (source line 227): resolve each
path through the registry in declaration order, first failure aborts. -/
def spineIdrefs (reg : Registry) : List String → Except String (List String)
  | [] => .ok []
  | p :: rest =>
    match getFileId reg p with
    | .error e => .error e
    | .ok id =>
      match spineIdrefs reg rest with
      | .error e => .error e
      | .ok ids => .ok (id :: ids)

/-- `buildSpine` (source lines 222-229): the `idref` sequence of the spine
element — the reserved cover id first when a cover is configured, then the
declared entries resolved through the registry. -/
def buildSpine (cover : Option String) (spine : List String) (reg : Registry) :
    Except String (List String) :=
  match spineIdrefs reg spine with
  | .error e => .error e
  | .ok ids =>
    .ok ((match cover with | some _ => [COVER_PAGE_ID] | none => []) ++ ids)

/-! ## Navigation tree builder

`src/navmap-builder.js` is not part of the sources at hand (only its unit
test is), so the builder is modelled from the spec, pinned by the expected
outputs of its unit test. -/

/-- Modelled from the spec: one node of the navigation forest
(`[{ label, href }, ...children]` in the configuration). -/
inductive TocNode where
  | node (label : String) (href : String) (children : List TocNode)

/-- Modelled from the spec: "strip any fragment suffix from its target" —
the target up to the first `#`. -/
def stripFragment (href : String) : String :=
  String.mk (href.toList.takeWhile (fun c => c ≠ '#'))

/-- A produced `navPoint` element: id attribute, play-order, label text,
content src, and nested child points. -/
inductive NavPoint where
  | point (id : String) (playOrder : Nat) (label : String) (src : String)
      (children : List NavPoint)

def NavPoint.pointId : NavPoint → String
  | .point i _ _ _ _ => i

def NavPoint.playOrder : NavPoint → Nat
  | .point _ po _ _ _ => po

/-! Modelled from the spec: pre-order traversal of the navigation forest
with a single running counter (play-order and `ncx-NNNNNN` id assigned
from the counter, which is then incremented), the fragment-stripped
target resolved through the registry (failure aborts the build), and the
largest absolute depth seen returned (root children have depth 1).
`navBuildNode` processes one node, `navBuildList` a forest; both return
`(produced points, next counter value, max depth seen)`. -/
mutual

def navBuildNode (reg : Registry) : TocNode → Nat → Nat → Except String (NavPoint × Nat × Nat)
  | .node label href children, depth, counter =>
    match getFileId reg (stripFragment href) with
    | .error e => .error e
    | .ok _ =>
      match navBuildList reg children (depth + 1) (counter + 1) with
      | .error e => .error e
      | .ok (pts, c', md) =>
        .ok (.point ("ncx-" ++ pad6 counter) counter label href pts, c', max depth md)

def navBuildList (reg : Registry) : List TocNode → Nat → Nat → Except String (List NavPoint × Nat × Nat)
  | [], _, counter => .ok ([], counter, 0)
  | n :: rest, depth, counter =>
    match navBuildNode reg n depth counter with
    | .error e => .error e
    | .ok (pt, c', md1) =>
      match navBuildList reg rest depth c' with
      | .error e => .error e
      | .ok (pts, c'', md2) => .ok (pt :: pts, c'', max md1 md2)

end

/-! Claim-side node count of a navigation forest. -/
mutual

def tocSizeNode : TocNode → Nat
  | .node _ _ children => 1 + tocSizeList children

def tocSizeList : List TocNode → Nat
  | [] => 0
  | n :: rest => tocSizeNode n + tocSizeList rest

end

/-! Claim-side depth of a navigation forest (root children have depth 1,
an empty forest has depth 0). -/
mutual

def tocDepthNode : TocNode → Nat
  | .node _ _ children => 1 + tocDepthList children

def tocDepthList : List TocNode → Nat
  | [] => 0
  | n :: rest => max (tocDepthNode n) (tocDepthList rest)

end

/-! All target references of a navigation forest, in pre-order. -/
mutual

def tocTargetsNode : TocNode → List String
  | .node _ href children => href :: tocTargetsList children

def tocTargetsList : List TocNode → List String
  | [] => []
  | n :: rest => tocTargetsNode n ++ tocTargetsList rest

end

/-! Pre-order flattening of produced navigation points. -/
mutual

def navFlattenNode : NavPoint → List NavPoint
  | .point i po label src children =>
    .point i po label src children :: navFlattenList children

def navFlattenList : List NavPoint → List NavPoint
  | [] => []
  | p :: rest => navFlattenNode p ++ navFlattenList rest

end

lemma tocSizeNode_pos (n : TocNode) : 1 ≤ tocSizeNode n := by
  cases n with
  | node label href children =>
    simp only [tocSizeNode]
    omega

/-- Combined shape of a successful navigation build: the next counter
advances by the node count, the pre-order play-orders are exactly
`range' c N`, every id is `ncx-` + the zero-padded play-order, and the
reported max depth matches the claim-side forest depth. -/
lemma navBuildList_ok_shape (reg : Registry) :
    ∀ (fuel : Nat) (nodes : List TocNode), tocSizeList nodes ≤ fuel →
    ∀ (d c : Nat) (pts : List NavPoint) (c' md : Nat),
      navBuildList reg nodes d c = .ok (pts, c', md) →
      c' = c + tocSizeList nodes
      ∧ (navFlattenList pts).map NavPoint.playOrder = List.range' c (tocSizeList nodes)
      ∧ (∀ q ∈ navFlattenList pts, q.pointId = "ncx-" ++ pad6 q.playOrder)
      ∧ (nodes = [] → pts = [] ∧ md = 0)
      ∧ (nodes ≠ [] → md + 1 = d + tocDepthList nodes) := by
  intro fuel
  induction fuel with
  | zero =>
    intro nodes hsz d c pts c' md h
    cases nodes with
    | nil =>
      simp only [navBuildList] at h
      injection h with h
      injection h with h1 h2
      injection h2 with h2 h3
      subst h1
      subst h2
      subst h3
      simp [tocSizeList, navFlattenList, List.range']
    | cons n rest =>
      exfalso
      have := tocSizeNode_pos n
      simp only [tocSizeList] at hsz
      omega
  | succ fuel ih =>
    intro nodes hsz d c pts c' md h
    cases nodes with
    | nil =>
      simp only [navBuildList] at h
      injection h with h
      injection h with h1 h2
      injection h2 with h2 h3
      subst h1
      subst h2
      subst h3
      simp [tocSizeList, navFlattenList, List.range']
    | cons n rest =>
      cases n with
      | node label href children =>
        have hsz' : 1 + tocSizeList children + tocSizeList rest ≤ fuel + 1 := by
          simp only [tocSizeList, tocSizeNode] at hsz
          omega
        simp only [navBuildList, navBuildNode] at h
        cases hg : getFileId reg (stripFragment href) with
        | error e => rw [hg] at h; cases h
        | ok fid =>
          rw [hg] at h
          cases hc : navBuildList reg children (d + 1) (c + 1) with
          | error e => rw [hc] at h; cases h
          | ok cres =>
            obtain ⟨cpts, cc, cmd⟩ := cres
            rw [hc] at h
            dsimp only at h
            cases hr : navBuildList reg rest d cc with
            | error e => rw [hr] at h; cases h
            | ok rres =>
              obtain ⟨rpts, rc, rmd⟩ := rres
              rw [hr] at h
              injection h with h
              injection h with h1 h2
              injection h2 with h2 h3
              subst h1
              subst h2
              subst h3
              obtain ⟨hcc, hcmap, hcids, hcempty, hcne⟩ :=
                ih children (by omega) (d + 1) (c + 1) cpts cc cmd hc
              obtain ⟨hrc, hrmap, hrids, hrempty, hrne⟩ :=
                ih rest (by omega) d cc rpts rc rmd hr
              have hfl : navFlattenList
                    (NavPoint.point ("ncx-" ++ pad6 c) c label href cpts :: rpts)
                  = NavPoint.point ("ncx-" ++ pad6 c) c label href cpts ::
                      (navFlattenList cpts ++ navFlattenList rpts) := by
                simp [navFlattenList, navFlattenNode]
              refine ⟨?_, ?_, ?_, ?_, ?_⟩
              · rw [hrc, hcc]
                simp only [tocSizeList, tocSizeNode]
                omega
              · rw [hfl]
                simp only [List.map_cons, List.map_append]
                rw [hcmap, hrmap, hcc]
                have hap := List.range'_append (c + 1) (tocSizeList children)
                  (tocSizeList rest) 1
                simp only [one_mul] at hap
                have hstep : NavPoint.playOrder
                    (NavPoint.point ("ncx-" ++ pad6 c) c label href cpts) = c := rfl
                rw [hstep, hap, ← List.range'_succ]
                have hn : tocSizeList rest + tocSizeList children + 1
                    = tocSizeList (TocNode.node label href children :: rest) := by
                  simp only [tocSizeList, tocSizeNode]
                  omega
                rw [hn]
              · intro q hq
                rw [hfl] at hq
                rcases List.mem_cons.mp hq with hq | hq
                · subst hq
                  rfl
                · rcases List.mem_append.mp hq with hq | hq
                  · exact hcids q hq
                  · exact hrids q hq
              · intro habs
                cases habs
              · intro _
                have hcfact : (cmd = 0 ∧ tocDepthList children = 0)
                    ∨ cmd + 1 = d + 1 + tocDepthList children := by
                  by_cases hch : children = []
                  · exact Or.inl ⟨(hcempty hch).2, by rw [hch]; simp [tocDepthList]⟩
                  · exact Or.inr (hcne hch)
                have hrfact : (rmd = 0 ∧ tocDepthList rest = 0)
                    ∨ rmd + 1 = d + tocDepthList rest := by
                  by_cases hr0 : rest = []
                  · exact Or.inl ⟨(hrempty hr0).2, by rw [hr0]; simp [tocDepthList]⟩
                  · exact Or.inr (hrne hr0)
                simp only [tocDepthList, tocDepthNode]
                rcases hcfact with ⟨h1, h2⟩ | h1 <;> rcases hrfact with ⟨h3, h4⟩ | h3 <;>
                  omega

lemma navBuildList_ok_of_resolvable (reg : Registry) :
    ∀ (fuel : Nat) (nodes : List TocNode), tocSizeList nodes ≤ fuel →
    ∀ (d c : Nat),
      (∀ t ∈ tocTargetsList nodes, (mapGet reg (stripFragment t)).isSome = true) →
      ∃ pts c' md, navBuildList reg nodes d c = .ok (pts, c', md) := by
  intro fuel
  induction fuel with
  | zero =>
    intro nodes hsz d c _
    cases nodes with
    | nil => exact ⟨[], c, 0, rfl⟩
    | cons n rest =>
      exfalso
      have := tocSizeNode_pos n
      simp only [tocSizeList] at hsz
      omega
  | succ fuel ih =>
    intro nodes hsz d c hres
    cases nodes with
    | nil => exact ⟨[], c, 0, rfl⟩
    | cons n rest =>
      cases n with
      | node label href children =>
        have hsz' : 1 + tocSizeList children + tocSizeList rest ≤ fuel + 1 := by
          simp only [tocSizeList, tocSizeNode] at hsz
          omega
        have hmemsplit : ∀ t, t ∈ tocTargetsList (TocNode.node label href children :: rest)
            ↔ (t = href ∨ t ∈ tocTargetsList children ∨ t ∈ tocTargetsList rest) := by
          intro t
          simp [tocTargetsList, tocTargetsNode]
        have hhref : (mapGet reg (stripFragment href)).isSome = true :=
          hres href ((hmemsplit href).mpr (Or.inl rfl))
        obtain ⟨fid, hfid⟩ := Option.isSome_iff_exists.mp hhref
        have hgf : getFileId reg (stripFragment href) = .ok fid := by
          unfold getFileId
          rw [hfid]
        obtain ⟨cpts, cc, cmd, hc⟩ := ih children (by omega) (d + 1) (c + 1)
          (fun t ht => hres t ((hmemsplit t).mpr (Or.inr (Or.inl ht))))
        obtain ⟨rpts, rc, rmd, hr⟩ := ih rest (by omega) d cc
          (fun t ht => hres t ((hmemsplit t).mpr (Or.inr (Or.inr ht))))
        refine ⟨NavPoint.point ("ncx-" ++ pad6 c) c label href cpts :: rpts, rc,
          max (max d cmd) rmd, ?_⟩
        simp only [navBuildList, navBuildNode]
        rw [hgf, hc]
        dsimp only
        rw [hr]

lemma navBuildList_error_of_unresolved (reg : Registry) :
    ∀ (fuel : Nat) (nodes : List TocNode), tocSizeList nodes ≤ fuel →
    ∀ (d c : Nat),
      (∃ t ∈ tocTargetsList nodes, mapGet reg (stripFragment t) = none) →
      ∃ q, navBuildList reg nodes d c = .error (fileNotFoundMsg q) ∧ mapGet reg q = none := by
  intro fuel
  induction fuel with
  | zero =>
    intro nodes hsz d c hbad
    cases nodes with
    | nil =>
      obtain ⟨t, ht, _⟩ := hbad
      simp [tocTargetsList] at ht
    | cons n rest =>
      exfalso
      have := tocSizeNode_pos n
      simp only [tocSizeList] at hsz
      omega
  | succ fuel ih =>
    intro nodes hsz d c hbad
    cases nodes with
    | nil =>
      obtain ⟨t, ht, _⟩ := hbad
      simp [tocTargetsList] at ht
    | cons n rest =>
      cases n with
      | node label href children =>
        have hsz' : 1 + tocSizeList children + tocSizeList rest ≤ fuel + 1 := by
          simp only [tocSizeList, tocSizeNode] at hsz
          omega
        cases hfid : mapGet reg (stripFragment href) with
        | none =>
          refine ⟨stripFragment href, ?_, hfid⟩
          have hgf : getFileId reg (stripFragment href)
              = .error (fileNotFoundMsg (stripFragment href)) := by
            unfold getFileId
            rw [hfid]
          simp only [navBuildList, navBuildNode]
          rw [hgf]
        | some fid =>
          have hgf : getFileId reg (stripFragment href) = .ok fid := by
            unfold getFileId
            rw [hfid]
          by_cases hcb : ∃ t ∈ tocTargetsList children, mapGet reg (stripFragment t) = none
          · obtain ⟨q, hq, hqnone⟩ := ih children (by omega) (d + 1) (c + 1) hcb
            refine ⟨q, ?_, hqnone⟩
            simp only [navBuildList, navBuildNode]
            rw [hgf, hq]
          · have hcok : ∀ t ∈ tocTargetsList children, (mapGet reg (stripFragment t)).isSome = true := by
              intro t ht
              cases hmg : mapGet reg (stripFragment t) with
              | none => exact absurd ⟨t, ht, hmg⟩ hcb
              | some v => rfl
            obtain ⟨cpts, cc, cmd, hc⟩ :=
              navBuildList_ok_of_resolvable reg fuel children (by omega) (d + 1) (c + 1) hcok
            have hrb : ∃ t ∈ tocTargetsList rest, mapGet reg (stripFragment t) = none := by
              obtain ⟨t, ht, htnone⟩ := hbad
              have : t = href ∨ t ∈ tocTargetsList children ∨ t ∈ tocTargetsList rest := by
                simpa [tocTargetsList, tocTargetsNode] using ht
              rcases this with h1 | h1 | h1
              · subst h1
                rw [hfid] at htnone
                cases htnone
              · exact absurd ⟨t, h1, htnone⟩ hcb
              · exact ⟨t, h1, htnone⟩
            obtain ⟨q, hq, hqnone⟩ := ih rest (by omega) d cc hrb
            refine ⟨q, ?_, hqnone⟩
            simp only [navBuildList, navBuildNode]
            rw [hgf, hc]
            dsimp only
            rw [hq]

/-! ## Package assembly (source lines 214-324) -/

def CONTENT_DIR : String := "OEBPS"

def CONTENT_FILENAME : String := "content.opf"

def MIMETYPE_FILENAME : String := "mimetype"

def CONTAINER_FILENAME : String := "META-INF/container.xml"

/-- `buildMetadata` (source lines 214-220): the merged metadata elements,
plus a cover `meta` element whose content is the cover's registry id when
a cover is configured (`getFileId` may throw). -/
def buildMetadataM (metadata : List Jsml) (cover : Option String) (reg : Registry) :
    Except String (List Jsml) :=
  match cover with
  | none => .ok metadata
  | some c =>
    match getFileId reg c with
    | .error e => .error e
    | .ok id => .ok (metadata ++ [Jsml.elem "meta" [("name", "cover"), ("content", id)] []])

/-- The data of the navigation document relevant to the claims: the
`dtb:uid` content, the `dtb:depth` content, the doc title text and the
produced `navMap` points. -/
structure TocDoc where
  uid : Option Jsml
  depthContent : String
  titleText : Option Jsml
  navMap : List NavPoint

/-- `buildTOC` (source lines 231-252): run the navigation builder on the
configured toc and assemble the header — `dtb:depth` is the string of the
builder's `maxDepth`. -/
def buildTOC (metadata : List Jsml) (toc : List TocNode) (reg : Registry) :
    Except String TocDoc :=
  match navBuildList reg toc 1 1 with
  | .error e => .error e
  | .ok (pts, _, md) =>
    .ok ⟨getFromMetadata "dc:identifier" metadata, Nat.repr md,
      getFromMetadata "dc:title" metadata, pts⟩

/-- Error message thrown by `buildCoverPage` (source line 256). -/
def notAnImageMsg (cover : String) : String :=
  "Cover file \"" ++ cover ++ "\" is not an image"

/-- JavaScript `s.startsWith(p)`, as a character-list prefix test. -/
def strStartsWith (s p : String) : Bool :=
  p.data.isPrefixOf s.data

/-- `buildCoverPage` (source lines 254-257, reduced to its fallible
check): the cover's media type must exist and start with `image/`. -/
def buildCoverPage (cover : String) : Except String Unit :=
  match getMediaTypeFromFilename cover with
  | .error e => .error e
  | .ok mt => if strStartsWith mt "image/" then .ok () else .error (notAnImageMsg cover)

/-- The archive entry names registered by `buildZip` (source lines
288-308), in registration order. -/
def zipEntryNames (contentDir : String) (cover : Option String)
    (walk : List WalkTriple) : List String :=
  [MIMETYPE_FILENAME, CONTAINER_FILENAME,
    pathJoin CONTENT_DIR CONTENT_FILENAME, pathJoin CONTENT_DIR TOC_FILENAME]
  ++ (match cover with | some _ => [pathJoin CONTENT_DIR COVER_PAGE_FILENAME] | none => [])
  ++ (walkFiles walk).map
      (fun p => pathJoin CONTENT_DIR
        (jsSubstring (pathJoin p.1 p.2) ((contentDir.length : Int) + 1)))

/-- Spec taxonomy §7: an unsupported-content error is either the
media-type guess failure or the cover-is-not-an-image failure. -/
def IsUnsupportedContentMsg (e : String) : Prop :=
  (∃ f, e = cantGuessMsg f) ∨ (∃ c, e = notAnImageMsg c)

/-- `create` (source lines 315-324), as the sequence of archive entries it
registers together with the error that aborted it, if any.  The steps run
in source order: manifest build, package-document assembly (merged
metadata, then spine), navigation document, cover page, archive writing;
the first failure aborts with no entry registered (the archive writer is
only reached after every document built). -/
def createEntries (contentDir : String) (cover : Option String) (spine : List String)
    (toc : List TocNode) (metadata : List Jsml) (simple : SimpleMetadataOptions)
    (uuid now : String) (walk : List WalkTriple) : List String × Option String :=
  let prepared := prepareMetadata metadata simple uuid now
  match buildManifest contentDir cover walk with
  | .error e => ([], some e)
  | .ok (_, reg) =>
    match buildMetadataM prepared cover reg with
    | .error e => ([], some e)
    | .ok _ =>
      match buildSpine cover spine reg with
      | .error e => ([], some e)
      | .ok _ =>
        match buildTOC prepared toc reg with
        | .error e => ([], some e)
        | .ok _ =>
          match cover with
          | some cov =>
            match buildCoverPage cov with
            | .error e => ([], some e)
            | .ok _ => (zipEntryNames contentDir cover walk, none)
          | none => (zipEntryNames contentDir cover walk, none)

/-! ## Metadata lemmas -/

lemma countTag_append (t : String) (a b : List Jsml) :
    countTag t (a ++ b) = countTag t a + countTag t b := by
  simp [countTag, List.filter_append]

lemma countTag_ite_zero (t : String) (c : Prop) [Decidable c] {e : Jsml}
    (h : Jsml.tagIs t e = false) :
    countTag t (if c then [e] else []) = 0 := by
  by_cases hc : c <;> simp [hc, countTag, List.filter_cons, h]

lemma countTag_ite_cond (t : String) (c : Prop) [Decidable c] {e : Jsml}
    (h : Jsml.tagIs t e = true) :
    countTag t (if c then [e] else []) = if c then 1 else 0 := by
  by_cases hc : c <;> simp [hc, countTag, List.filter_cons, h]

lemma countTag_pos_of_lookup_isSome {t : String} {l : List Jsml}
    (h : (getElementTextByName t l).isSome = true) : 1 ≤ countTag t l := by
  unfold getElementTextByName at h
  cases hf : l.find? (Jsml.tagIs t) with
  | none => rw [hf] at h; simp at h
  | some e =>
    have hmem := List.mem_of_find?_eq_some hf
    have htag := List.find?_some hf
    have : e ∈ l.filter (Jsml.tagIs t) := List.mem_filter.mpr ⟨hmem, htag⟩
    have := List.length_pos_of_mem this
    unfold countTag
    omega

lemma countTag_eq_zero_of_lookup_none {t : String} {l : List Jsml}
    (hc : countTag t l ≤ 1)
    (himp : countTag t l = 1 → (getElementTextByName t l).isSome = true)
    (hn : getElementTextByName t l = none) : countTag t l = 0 := by
  rcases Nat.lt_or_ge (countTag t l) 1 with h | h
  · omega
  · have h1 : countTag t l = 1 := by omega
    have := himp h1
    rw [hn] at this
    cases this

lemma countTag_eq_one_of_lookup_isSome {t : String} {l : List Jsml}
    (hc : countTag t l ≤ 1)
    (hs : (getElementTextByName t l).isSome = true) : countTag t l = 1 := by
  have := countTag_pos_of_lookup_isSome hs
  omega

lemma getElementTextByName_append_left {name : String} {l₁ : List Jsml}
    (l₂ : List Jsml) {v : Jsml} (h : getElementTextByName name l₁ = some v) :
    getElementTextByName name (l₁ ++ l₂) = some v := by
  unfold getElementTextByName at h ⊢
  cases hf : l₁.find? (Jsml.tagIs name) with
  | none => rw [hf] at h; cases h
  | some e =>
    rw [hf] at h
    rw [List.find?_append, hf]
    exact h

lemma mem_if_singleton {α : Type} (a f : α) (c : Prop) [Decidable c] :
    (a ∈ if c then [f] else []) ↔ (c ∧ a = f) := by
  by_cases hc : c <;> simp [hc]

lemma jsOr_eq_getD {x : Option String} {d : String} (h : x ≠ some "") :
    jsOr x d = x.getD d := by
  cases x with
  | none => rfl
  | some s =>
    have hs : ¬ s = "" := fun hh => h (by rw [hh])
    simp [jsOr, hs]

/-! ## Claim theorems -/

/-- C10: the media type is determined solely by the substring after the
last dot of the path (the entire path when it has no dot), compared
case-sensitively against the fixed extension table; in particular a file
named exactly `css` yields `text/css`, while `page.HTML` and `photo.jpeg`
throw the media-type error. -/
theorem c10_media_type_from_last_dot :
    (∀ path, getMediaTypeFromFilename path =
        match mediaTypeOfExt (String.mk (extAfterLastDot path.toList)) with
        | some m => .ok m
        | none => .error (cantGuessMsg path))
    ∧ getMediaTypeFromFilename "css" = .ok "text/css"
    ∧ getMediaTypeFromFilename "page.HTML" = .error (cantGuessMsg "page.HTML")
    ∧ getMediaTypeFromFilename "photo.jpeg" = .error (cantGuessMsg "photo.jpeg") :=
  ⟨gmt_eq_table, rfl, rfl, rfl⟩

/-- C8: the merged metadata has the explicit elements as an unaltered
prefix in their original order, every synthesized element is appended
after them, and a first-occurrence lookup by tag name returns the
explicit value whenever the explicit list supplied one. -/
theorem c8_explicit_metadata_preserved (metadata : List Jsml)
    (simple : SimpleMetadataOptions) (uuid now : String) :
    (prepareMetadata metadata simple uuid now).take metadata.length = metadata
    ∧ (∃ extra, prepareMetadata metadata simple uuid now = metadata ++ extra)
    ∧ ∀ name v, getElementTextByName name metadata = some v →
        getElementTextByName name (prepareMetadata metadata simple uuid now) = some v := by
  refine ⟨?_, ?_, ?_⟩
  · unfold prepareMetadata
    exact List.take_left metadata _
  · exact ⟨_, rfl⟩
  · intro name v h
    unfold prepareMetadata
    exact getElementTextByName_append_left _ h

/-- C8 witness at a concrete input. -/
theorem c8_explicit_metadata_preserved_witness :
    (prepareMetadata [Jsml.elem "dc:title" [] [.text "T"]] {} "u" "2020").take 1
        = [Jsml.elem "dc:title" [] [.text "T"]]
    ∧ getElementTextByName "dc:title"
        (prepareMetadata [Jsml.elem "dc:title" [] [.text "T"]] {} "u" "2020")
        = some (.text "T") := by
  have h := c8_explicit_metadata_preserved [Jsml.elem "dc:title" [] [.text "T"]] {} "u" "2020"
  exact ⟨h.1, h.2.2 "dc:title" (.text "T") rfl⟩

/-- C2 as stated is false: an explicit metadata list holding two
`dc:title` elements (valid JSML, accepted by the merge) yields a merged
list with two title elements — the claimed "exactly one title" is false
at this input (the second conjunct is that falsity, decided). -/
theorem c2_counterexample :
    countTag "dc:title"
      (prepareMetadata
        [Jsml.elem "dc:title" [] [.text "a"], Jsml.elem "dc:title" [] [.text "b"]]
        {} "u" "2020") = 2
    ∧ decide (countTag "dc:title"
      (prepareMetadata
        [Jsml.elem "dc:title" [] [.text "a"], Jsml.elem "dc:title" [] [.text "b"]]
        {} "u" "2020") = 1) = false := by
  constructor
  · decide
  · decide

/-- C2 amended: when the explicit list holds at most one element for each
of `dc:title`, `dc:date`, `dc:language`, and a sole such element has a
defined first child (so the merge's lookup detects it), the merged list
holds exactly one element of each of those tags; and it holds an
identifier carrying the source's uuid scheme marker unless the lookup
found an explicit identifier. -/
theorem c2_merge_uniqueness_amended (metadata : List Jsml)
    (simple : SimpleMetadataOptions) (uuid now : String)
    (ht1 : countTag "dc:title" metadata ≤ 1)
    (ht2 : countTag "dc:title" metadata = 1 →
      (getElementTextByName "dc:title" metadata).isSome = true)
    (hd1 : countTag "dc:date" metadata ≤ 1)
    (hd2 : countTag "dc:date" metadata = 1 →
      (getElementTextByName "dc:date" metadata).isSome = true)
    (hl1 : countTag "dc:language" metadata ≤ 1)
    (hl2 : countTag "dc:language" metadata = 1 →
      (getElementTextByName "dc:language" metadata).isSome = true) :
    countTag "dc:title" (prepareMetadata metadata simple uuid now) = 1
    ∧ countTag "dc:date" (prepareMetadata metadata simple uuid now) = 1
    ∧ countTag "dc:language" (prepareMetadata metadata simple uuid now) = 1
    ∧ ((prepareMetadata metadata simple uuid now).any Jsml.isUuidSchemeIdentifier = true
        ∨ (getElementTextByName "dc:identifier" metadata).isSome = true) := by
  unfold prepareMetadata
  refine ⟨?_, ?_, ?_, ?_⟩
  · simp only [countTag_append]
    rw [countTag_ite_zero _ _ (by simp [Jsml.tagIs]),
      countTag_ite_zero _ _ (by simp [Jsml.tagIs]),
      countTag_ite_zero _ _ (by simp [Jsml.tagIs]),
      countTag_ite_cond _ _ (by simp [Jsml.tagIs]),
      countTag_ite_zero _ _ (by simp [Jsml.tagIs])]
    cases hx : getElementTextByName "dc:title" metadata with
    | none =>
      have h0 := countTag_eq_zero_of_lookup_none ht1 ht2 hx
      simp [hx, h0]
    | some v =>
      have h1 := countTag_eq_one_of_lookup_isSome ht1 (by rw [hx]; rfl)
      simp [hx, h1]
  · simp only [countTag_append]
    rw [countTag_ite_zero _ _ (by simp [Jsml.tagIs]),
      countTag_ite_cond _ _ (by simp [Jsml.tagIs]),
      countTag_ite_zero _ _ (by simp [Jsml.tagIs]),
      countTag_ite_zero _ _ (by simp [Jsml.tagIs]),
      countTag_ite_zero _ _ (by simp [Jsml.tagIs])]
    cases hx : getElementTextByName "dc:date" metadata with
    | none =>
      have h0 := countTag_eq_zero_of_lookup_none hd1 hd2 hx
      simp [hx, h0]
    | some v =>
      have h1 := countTag_eq_one_of_lookup_isSome hd1 (by rw [hx]; rfl)
      simp [hx, h1]
  · simp only [countTag_append]
    rw [countTag_ite_zero _ _ (by simp [Jsml.tagIs]),
      countTag_ite_zero _ _ (by simp [Jsml.tagIs]),
      countTag_ite_cond _ _ (by simp [Jsml.tagIs]),
      countTag_ite_zero _ _ (by simp [Jsml.tagIs]),
      countTag_ite_zero _ _ (by simp [Jsml.tagIs])]
    cases hx : getElementTextByName "dc:language" metadata with
    | none =>
      have h0 := countTag_eq_zero_of_lookup_none hl1 hl2 hx
      simp [hx, h0]
    | some v =>
      have h1 := countTag_eq_one_of_lookup_isSome hl1 (by rw [hx]; rfl)
      simp [hx, h1]
  · cases hx : getElementTextByName "dc:identifier" metadata with
    | none =>
      left
      simp [List.any_append, Jsml.isUuidSchemeIdentifier]
    | some v =>
      right
      rfl

/-- C2 amended witness at a concrete input. -/
theorem c2_merge_uniqueness_amended_witness :
    countTag "dc:title"
      (prepareMetadata [Jsml.elem "dc:title" [] [.text "T"]] {} "u" "2020") = 1
    ∧ (prepareMetadata [Jsml.elem "dc:title" [] [.text "T"]] {} "u" "2020").any
        Jsml.isUuidSchemeIdentifier = true := by
  have h := c2_merge_uniqueness_amended [Jsml.elem "dc:title" [] [.text "T"]] {} "u" "2020"
    (by decide) (fun _ => by decide) (by decide) (by decide) (by decide) (by decide)
  refine ⟨h.1, ?_⟩
  rcases h.2.2.2 with hy | hy
  · exact hy
  · cases hy

/-- C3 as stated is false: an explicit `dc:title` element with no child
(`['dc:title']`, valid JSML) means an element with that tag name exists,
yet the merge still synthesizes a second title, because its existence
check looks at the first child, not at the element. -/
theorem c3_counterexample :
    countTag "dc:title" [Jsml.elem "dc:title" [] []] = 1
    ∧ countTag "dc:title"
        (prepareMetadata [Jsml.elem "dc:title" [] []] {} "u" "2020") = 2 := by
  constructor
  · decide
  · decide

/-- C3 amended: each of the four required fields is synthesized exactly
when the merge's lookup (`getElementTextByName`, first element with the
tag, then its first child) returns nothing — with the synthesized values
the claim describes: the `urn:uuid:` identifier with anchor id `BookId`
and the source's uuid scheme marker, the current timestamp as the date,
the shorthand language else `en`, the shorthand title else `Untitled`. -/
theorem c3_required_field_synthesis_amended (metadata : List Jsml)
    (simple : SimpleMetadataOptions) (uuid now : String)
    (hlang : simple.language ≠ some "") (htitle : simple.title ≠ some "") :
    ((Jsml.elem "dc:identifier" [("id", "BookId"), ("opf:scheme", "uuid")]
        [.text ("urn:uuid:" ++ uuid)]
        ∈ (prepareMetadata metadata simple uuid now).drop metadata.length)
      ↔ getElementTextByName "dc:identifier" metadata = none)
    ∧ ((Jsml.elem "dc:date" [] [.text now]
        ∈ (prepareMetadata metadata simple uuid now).drop metadata.length)
      ↔ getElementTextByName "dc:date" metadata = none)
    ∧ ((Jsml.elem "dc:language" [] [.text (simple.language.getD DEFAULT_LANGUAGE)]
        ∈ (prepareMetadata metadata simple uuid now).drop metadata.length)
      ↔ getElementTextByName "dc:language" metadata = none)
    ∧ ((Jsml.elem "dc:title" [] [.text (simple.title.getD DEFAULT_TITLE)]
        ∈ (prepareMetadata metadata simple uuid now).drop metadata.length)
      ↔ getElementTextByName "dc:title" metadata = none) := by
  unfold prepareMetadata
  rw [jsOr_eq_getD hlang, jsOr_eq_getD htitle]
  rw [List.drop_left]
  simp [List.mem_append, mem_if_singleton, Option.isNone_iff_eq_none]

/-- C3 amended witness at a concrete input. -/
theorem c3_required_field_synthesis_amended_witness :
    (Jsml.elem "dc:title" [] [.text "Untitled"]
      ∈ (prepareMetadata [] {} "u" "2020").drop 0)
    ∧ getElementTextByName "dc:title" ([] : List Jsml) = none := by
  have h := c3_required_field_synthesis_amended [] {} "u" "2020"
    (by simp) (by simp)
  exact ⟨h.2.2.2.mpr rfl, rfl⟩

/-- C1 evaluated on the code: the options schema rejects a shorthand
object holding `description`, `isbn` or `tags` (unknown keys), and the
merge synthesizes no `dc:description`, no `dc:subject`, and no
ISBN-scheme identifier even when those shorthand values are present. -/
theorem c1_shorthand_extras_rejected_and_unsynthesized :
    validSimpleMetadata
      ⟨some "Un libro", some "Un autore", some "it",
        some "Blurb!", some "1234567890", some ["Adventure", "Fiction"]⟩ = false
    ∧ countTag "dc:description"
        (prepareMetadata []
          ⟨some "Un libro", some "Un autore", some "it",
            some "Blurb!", some "1234567890", some ["Adventure", "Fiction"]⟩
          "u" "2020") = 0
    ∧ countTag "dc:subject"
        (prepareMetadata []
          ⟨some "Un libro", some "Un autore", some "it",
            some "Blurb!", some "1234567890", some ["Adventure", "Fiction"]⟩
          "u" "2020") = 0
    ∧ (prepareMetadata []
          ⟨some "Un libro", some "Un autore", some "it",
            some "Blurb!", some "1234567890", some ["Adventure", "Fiction"]⟩
          "u" "2020").all (fun j => !j.isIsbnSchemeIdentifier) = true := by
  refine ⟨?_, ?_, ?_, ?_⟩ <;> decide

def TocNode.subs : TocNode → List TocNode
  | .node _ _ children => children

lemma tocDepthList_flat {forest : List TocNode}
    (hflat : ∀ n ∈ forest, n.subs = []) (hne : forest ≠ []) :
    tocDepthList forest = 1 := by
  induction forest with
  | nil => exact absurd rfl hne
  | cons n rest ih =>
    have hn : n.subs = [] := hflat n (List.mem_cons_self _ _)
    have hdn : tocDepthNode n = 1 := by
      cases n with
      | node label href children =>
        simp only [TocNode.subs] at hn
        simp [tocDepthNode, hn, tocDepthList]
    cases rest with
    | nil => simp [tocDepthList, hdn]
    | cons m rest' =>
      have := ih (fun q hq => hflat q (List.mem_cons_of_mem _ hq)) (by simp)
      simp [tocDepthList, hdn] at this ⊢
      omega

/-- C5 (navigation builder modelled from the spec; the file
`navmap-builder.js` is absent from the sources at hand): for every
non-empty forest that builds successfully from the initial state (single
counter starting at 1, pre-order traversal), the play-orders in pre-order
are exactly `1..N` for `N` the total node count, and every point's id is
`ncx-` followed by its play-order zero-padded to six digits. -/
theorem c5_playorder_preorder (reg : Registry) (forest : List TocNode)
    (pts : List NavPoint) (c' md : Nat)
    (hne : forest ≠ [])
    (h : navBuildList reg forest 1 1 = .ok (pts, c', md)) :
    (navFlattenList pts).map NavPoint.playOrder = List.range' 1 (tocSizeList forest)
    ∧ ∀ q ∈ navFlattenList pts, q.pointId = "ncx-" ++ pad6 q.playOrder := by
  obtain ⟨h1, h2, h3, h4, h5⟩ :=
    navBuildList_ok_shape reg (tocSizeList forest) forest le_rfl 1 1 pts c' md h
  exact ⟨h2, h3⟩

/-- C5 witness at a concrete two-node forest. -/
theorem c5_playorder_preorder_witness :
    (navFlattenList
        [NavPoint.point ("ncx-" ++ pad6 1) 1 "s1" "1.html" [],
         NavPoint.point ("ncx-" ++ pad6 2) 2 "s2" "2.html" []]).map NavPoint.playOrder
      = List.range' 1
          (tocSizeList [TocNode.node "s1" "1.html" [], TocNode.node "s2" "2.html" []]) := by
  have h := c5_playorder_preorder [("1.html", "a"), ("2.html", "b")]
    [TocNode.node "s1" "1.html" [], TocNode.node "s2" "2.html" []]
    [NavPoint.point ("ncx-" ++ pad6 1) 1 "s1" "1.html" [],
     NavPoint.point ("ncx-" ++ pad6 2) 2 "s2" "2.html" []]
    3 1 (by simp) rfl
  exact h.1

/-- C6 (navigation builder modelled from the spec; the file
`navmap-builder.js` is absent from the sources at hand): a successful
build reports `maxDepth` equal to the true forest depth with root
children at depth 1 — an empty forest yields an empty tree and depth 0, a
non-empty forest of leaves yields depth 1 — and `buildTOC` uses the
reported value verbatim as the `dtb:depth` header content. -/
theorem c6_maxdepth_true_depth (reg : Registry) (forest : List TocNode)
    (metadata : List Jsml) (pts : List NavPoint) (c' md : Nat)
    (h : navBuildList reg forest 1 1 = .ok (pts, c', md)) :
    md = tocDepthList forest
    ∧ (forest = [] → pts = [] ∧ md = 0)
    ∧ ((∀ n ∈ forest, n.subs = []) → forest ≠ [] → md = 1)
    ∧ ∀ doc, buildTOC metadata forest reg = .ok doc → doc.depthContent = Nat.repr md := by
  obtain ⟨h1, h2, h3, h4, h5⟩ :=
    navBuildList_ok_shape reg (tocSizeList forest) forest le_rfl 1 1 pts c' md h
  have hmd : md = tocDepthList forest := by
    by_cases hne : forest = []
    · subst hne
      rw [(h4 rfl).2]
      simp [tocDepthList]
    · have := h5 hne
      omega
  refine ⟨hmd, h4, ?_, ?_⟩
  · intro hflat hne
    rw [hmd, tocDepthList_flat hflat hne]
  · intro doc hdoc
    unfold buildTOC at hdoc
    rw [h] at hdoc
    injection hdoc with hdoc
    rw [← hdoc]

/-- C6 witness at a concrete flat forest. -/
theorem c6_maxdepth_true_depth_witness :
    (1 : Nat) = tocDepthList [TocNode.node "s1" "1.html" []]
    ∧ ∀ doc, buildTOC [] [TocNode.node "s1" "1.html" []] [("1.html", "a")] = .ok doc →
        doc.depthContent = Nat.repr 1 := by
  have h := c6_maxdepth_true_depth [("1.html", "a")] [TocNode.node "s1" "1.html" []]
    [] [NavPoint.point ("ncx-" ++ pad6 1) 1 "s1" "1.html" []] 2 1 rfl
  exact ⟨h.1, h.2.2.2⟩

lemma enumFrom_map_relHref (cd : String) (l : List (String × String)) (n : Nat) :
    (l.enumFrom n).map (fun p => relHref cd p.2.1 p.2.2)
      = l.map (fun q => relHref cd q.1 q.2) := by
  induction l generalizing n with
  | nil => rfl
  | cons x xs ih => simp [List.enumFrom, ih]

lemma pad6_length_ge (n : Nat) : 6 ≤ (pad6 n).length := by
  unfold pad6
  have h1 : (String.mk (List.replicate (6 - (Nat.repr n).length) '0')).length
      = 6 - (Nat.repr n).length := by
    show (List.replicate (6 - (Nat.repr n).length) '0').length = _
    rw [List.length_replicate]
  rw [String.length_append, h1]
  omega

lemma padded_id_ne_reserved (i : Nat) :
    ("id-" ++ pad6 i) ≠ TOC_ID ∧ ("id-" ++ pad6 i) ≠ COVER_PAGE_ID := by
  have h := pad6_length_ge i
  have h3 : ("id-" : String).length = 3 := by decide
  constructor
  · intro hEq
    have hlen := congrArg String.length hEq
    rw [String.length_append, h3] at hlen
    have h6 : TOC_ID.length = 6 := by decide
    rw [h6] at hlen
    omega
  · intro hEq
    have hlen := congrArg String.length hEq
    rw [String.length_append, h3] at hlen
    have h8 : COVER_PAGE_ID.length = 8 := by decide
    rw [h8] at hlen
    omega

/-- C4: a manifest built over a walk with supported files and distinct
relative paths is the reserved TOC item, then the reserved cover item
exactly when a cover is configured, then one item per walked file in
visitation order with ids `id-000001`, `id-000002`, … zero-padded to six
digits, while the registry records each relative path with its id, in
order; no generated file id collides with a reserved id. -/
theorem c4_manifest_fixed_order (contentDir : String) (cover : Option String)
    (walk : List WalkTriple)
    (hok : ∀ p ∈ walkFiles walk, (getMediaTypeFromFilename p.2).isOk = true)
    (hnodup : ((walkFiles walk).map (fun q => relHref contentDir q.1 q.2)).Nodup) :
    buildManifest contentDir cover walk =
      .ok (Item.mk TOC_ID TOC_FILENAME TOC_MEDIA_TYPE ::
            ((match cover with
              | some _ => [Item.mk COVER_PAGE_ID COVER_PAGE_FILENAME COVER_PAGE_MEDIA_TYPE]
              | none => []) ++
             ((walkFiles walk).enumFrom 1).map
               (fun p => Item.mk ("id-" ++ pad6 p.1) (relHref contentDir p.2.1 p.2.2)
                 (mediaTypeD p.2.2))),
           ((walkFiles walk).enumFrom 1).map
             (fun p => (relHref contentDir p.2.1 p.2.2, "id-" ++ pad6 p.1)))
    ∧ ∀ i : Nat, ("id-" ++ pad6 i) ≠ TOC_ID ∧ ("id-" ++ pad6 i) ≠ COVER_PAGE_ID := by
  refine ⟨?_, fun i => padded_id_ne_reserved i⟩
  unfold buildManifest
  rw [manifestWalk_eq_processFiles,
    processFiles_ok_of_supported contentDir (walkFiles walk) 1 [] hok]
  have hreg : ((walkFiles walk).enumFrom 1).foldl
      (fun r p => mapSet r (relHref contentDir p.2.1 p.2.2) ("id-" ++ pad6 p.1)) []
      = ((walkFiles walk).enumFrom 1).map
          (fun p => (relHref contentDir p.2.1 p.2.2, "id-" ++ pad6 p.1)) := by
    rw [← List.foldl_map
      (fun p : Nat × String × String => (relHref contentDir p.2.1 p.2.2, "id-" ++ pad6 p.1))
      (fun r q => mapSet r q.1 q.2)]
    rw [foldl_mapSet_fresh]
    · rw [List.nil_append]
    · intro q hq r hr
      cases hr
    · rw [List.map_map]
      show (List.map (fun p : Nat × String × String => relHref contentDir p.2.1 p.2.2)
        (List.enumFrom 1 (walkFiles walk))).Nodup
      rw [enumFrom_map_relHref]
      exact hnodup
  rw [hreg]
  rfl

/-- C4 witness at a concrete one-file walk. -/
theorem c4_manifest_fixed_order_witness :
    buildManifest "root" none [⟨"root", [], ["a.html"]⟩] =
      .ok (Item.mk TOC_ID TOC_FILENAME TOC_MEDIA_TYPE ::
            (([] : List Item) ++
             ((walkFiles [⟨"root", [], ["a.html"]⟩]).enumFrom 1).map
               (fun p => Item.mk ("id-" ++ pad6 p.1) (relHref "root" p.2.1 p.2.2)
                 (mediaTypeD p.2.2))),
           ((walkFiles [⟨"root", [], ["a.html"]⟩]).enumFrom 1).map
             (fun p => (relHref "root" p.2.1 p.2.2, "id-" ++ pad6 p.1))) := by
  have h := c4_manifest_fixed_order "root" none [⟨"root", [], ["a.html"]⟩]
    (by decide) (by decide)
  exact h.1

lemma spineIdrefs_ok_of_resolvable (reg : Registry) (spine : List String)
    (h : ∀ p ∈ spine, (mapGet reg p).isSome = true) :
    ∃ ids, spineIdrefs reg spine = .ok ids := by
  induction spine with
  | nil => exact ⟨[], rfl⟩
  | cons p rest ih =>
    have hp := h p (List.mem_cons_self _ _)
    obtain ⟨id, hid⟩ := Option.isSome_iff_exists.mp hp
    have hgf : getFileId reg p = .ok id := by
      unfold getFileId
      rw [hid]
    obtain ⟨ids, hids⟩ := ih (fun q hq => h q (List.mem_cons_of_mem _ hq))
    exact ⟨id :: ids, by simp [spineIdrefs, hgf, hids]⟩

lemma spineIdrefs_error_of_unresolved (reg : Registry) (spine : List String)
    (hbad : ∃ p ∈ spine, mapGet reg p = none) :
    ∃ q, mapGet reg q = none ∧ spineIdrefs reg spine = .error (fileNotFoundMsg q) := by
  induction spine with
  | nil =>
    obtain ⟨p, hp, _⟩ := hbad
    cases hp
  | cons p rest ih =>
    cases hmg : mapGet reg p with
    | none =>
      refine ⟨p, hmg, ?_⟩
      have hgf : getFileId reg p = .error (fileNotFoundMsg p) := by
        unfold getFileId
        rw [hmg]
      simp [spineIdrefs, hgf]
    | some id =>
      have hgf : getFileId reg p = .ok id := by
        unfold getFileId
        rw [hmg]
      have hrest : ∃ q ∈ rest, mapGet reg q = none := by
        obtain ⟨q, hq, hqn⟩ := hbad
        rcases List.mem_cons.mp hq with h1 | h1
        · subst h1
          rw [hmg] at hqn
          cases hqn
        · exact ⟨q, h1, hqn⟩
      obtain ⟨q, hqn, hqe⟩ := ih hrest
      refine ⟨q, hqn, ?_⟩
      simp [spineIdrefs, hgf, hqe]

/-- C7: for a registry populated by a successful manifest build, every
discovered relative path resolves to its recorded identifier; any other
path fails with the unresolved-reference error naming that path; and an
unresolved entry aborts the spine build, and an unresolved
fragment-stripped target the navigation build, with that same error. -/
theorem c7_registry_roundtrip (contentDir : String) (cover : Option String)
    (walk : List WalkTriple) (items : List Item) (reg : Registry)
    (h : buildManifest contentDir cover walk = .ok (items, reg)) :
    (∀ p, p ∈ (walkFiles walk).map (fun q => relHref contentDir q.1 q.2) →
        ∃ id, getFileId reg p = .ok id ∧ (p, id) ∈ reg)
    ∧ (∀ p, p ∉ (walkFiles walk).map (fun q => relHref contentDir q.1 q.2) →
        getFileId reg p = .error (fileNotFoundMsg p))
    ∧ (∀ spine, (∃ p ∈ spine,
          p ∉ (walkFiles walk).map (fun q => relHref contentDir q.1 q.2)) →
        ∃ q, q ∉ (walkFiles walk).map (fun q2 => relHref contentDir q2.1 q2.2)
          ∧ buildSpine cover spine reg = .error (fileNotFoundMsg q))
    ∧ (∀ toc, (∃ t ∈ tocTargetsList toc,
          stripFragment t ∉ (walkFiles walk).map (fun q => relHref contentDir q.1 q.2)) →
        ∃ q, q ∉ (walkFiles walk).map (fun q2 => relHref contentDir q2.1 q2.2)
          ∧ navBuildList reg toc 1 1 = .error (fileNotFoundMsg q)) := by
  have hkey : ∀ p, (mapGet reg p).isSome = true
      ↔ p ∈ (walkFiles walk).map (fun q => relHref contentDir q.1 q.2) := by
    unfold buildManifest at h
    rw [manifestWalk_eq_processFiles] at h
    cases hpf : processFiles contentDir (walkFiles walk) 1 [] with
    | error e => rw [hpf] at h; cases h
    | ok r =>
      obtain ⟨items0, reg0, c0⟩ := r
      rw [hpf] at h
      dsimp only at h
      injection h with h
      injection h with h1 h2
      subst h2
      intro p
      have hch := processFiles_mapGet_isSome contentDir (walkFiles walk) 1 [] items0 reg0 c0 hpf p
      rw [hch]
      simp [mapGet]
  refine ⟨?_, ?_, ?_, ?_⟩
  · intro p hp
    obtain ⟨id, hid⟩ := Option.isSome_iff_exists.mp ((hkey p).mpr hp)
    refine ⟨id, ?_, mem_of_mapGet_eq_some hid⟩
    unfold getFileId
    rw [hid]
  · intro p hp
    have hns : ¬ (mapGet reg p).isSome = true := fun hs => hp ((hkey p).mp hs)
    cases hmg : mapGet reg p with
    | some id =>
      rw [hmg] at hns
      exact absurd rfl hns
    | none =>
      unfold getFileId
      rw [hmg]
  · intro spine hbad
    have hbad' : ∃ p ∈ spine, mapGet reg p = none := by
      obtain ⟨p, hp, hpn⟩ := hbad
      refine ⟨p, hp, ?_⟩
      cases hmg : mapGet reg p with
      | none => rfl
      | some id => exact absurd ((hkey p).mp (by rw [hmg]; rfl)) hpn
    obtain ⟨q, hqn, hqe⟩ := spineIdrefs_error_of_unresolved reg spine hbad'
    refine ⟨q, fun hmem => ?_, ?_⟩
    · have := (hkey q).mpr hmem
      rw [hqn] at this
      cases this
    · unfold buildSpine
      rw [hqe]
  · intro toc hbad
    have hbad' : ∃ t ∈ tocTargetsList toc, mapGet reg (stripFragment t) = none := by
      obtain ⟨t, ht, htn⟩ := hbad
      refine ⟨t, ht, ?_⟩
      cases hmg : mapGet reg (stripFragment t) with
      | none => rfl
      | some id => exact absurd ((hkey (stripFragment t)).mp (by rw [hmg]; rfl)) htn
    obtain ⟨q, hqe, hqn⟩ :=
      navBuildList_error_of_unresolved reg (tocSizeList toc) toc le_rfl 1 1 hbad'
    refine ⟨q, fun hmem => ?_, hqe⟩
    have := (hkey q).mpr hmem
    rw [hqn] at this
    cases this

/-- C7 witness: a path absent from a concretely built registry fails with
the unresolved-reference error naming it. -/
theorem c7_registry_roundtrip_witness :
    getFileId [("a.html", "id-" ++ pad6 1)] "missing.html"
      = .error (fileNotFoundMsg "missing.html") := by
  have h := c7_registry_roundtrip "root" none [⟨"root", [], ["a.html"]⟩]
    [Item.mk TOC_ID TOC_FILENAME TOC_MEDIA_TYPE,
     Item.mk ("id-" ++ pad6 1) "a.html" "application/xhtml+xml"]
    [("a.html", "id-" ++ pad6 1)] (by rfl)
  exact h.2.1 "missing.html" (by decide)

/-- C9: with a cover configured whose file name does not map to an image
media type, the build fails with an unsupported-content error and the
result registers no archive entry: when some walked file (such as the
cover itself) has an unsupported extension the manifest step aborts with
the media-type error, and when the manifest, spine and navigation all
succeed and the cover's media type is unguessable or not `image/`-typed,
the cover-page step aborts — in both cases before the archive writer is
reached. -/
theorem c9_cover_not_image_aborts_before_archive (contentDir cov : String)
    (spine : List String) (toc : List TocNode) (metadata : List Jsml)
    (simple : SimpleMetadataOptions) (uuid now : String) (walk : List WalkTriple) :
    ((∃ p ∈ walkFiles walk, (getMediaTypeFromFilename p.2).isOk = false) →
      ∃ e, createEntries contentDir (some cov) spine toc metadata simple uuid now walk
          = ([], some e) ∧ IsUnsupportedContentMsg e)
    ∧ ((∀ p ∈ walkFiles walk, (getMediaTypeFromFilename p.2).isOk = true) →
       cov ∈ (walkFiles walk).map (fun q => relHref contentDir q.1 q.2) →
       (∀ p ∈ spine, p ∈ (walkFiles walk).map (fun q => relHref contentDir q.1 q.2)) →
       (∀ t ∈ tocTargetsList toc,
         stripFragment t ∈ (walkFiles walk).map (fun q => relHref contentDir q.1 q.2)) →
       (∀ mt, getMediaTypeFromFilename cov = .ok mt → strStartsWith mt "image/" = false) →
       ∃ e, createEntries contentDir (some cov) spine toc metadata simple uuid now walk
          = ([], some e) ∧ IsUnsupportedContentMsg e) := by
  constructor
  · intro hbad
    obtain ⟨f, hpf⟩ :=
      processFiles_error_of_unsupported contentDir (walkFiles walk) 1 [] hbad
    refine ⟨cantGuessMsg f, ?_, Or.inl ⟨f, rfl⟩⟩
    unfold createEntries buildManifest
    rw [manifestWalk_eq_processFiles, hpf]
  · intro hok hcov hspine htoc himg
    have hman := processFiles_ok_of_supported contentDir (walkFiles walk) 1 [] hok
    set reg := ((walkFiles walk).enumFrom 1).foldl
      (fun r p => mapSet r (relHref contentDir p.2.1 p.2.2) ("id-" ++ pad6 p.1)) []
      with hregdef
    have hkey : ∀ p, (mapGet reg p).isSome = true
        ↔ p ∈ (walkFiles walk).map (fun q => relHref contentDir q.1 q.2) := by
      intro p
      rw [processFiles_mapGet_isSome contentDir (walkFiles walk) 1 [] _ _ _ hman p]
      simp [mapGet]
    obtain ⟨cid, hcid⟩ := Option.isSome_iff_exists.mp ((hkey cov).mpr hcov)
    have hgfc : getFileId reg cov = .ok cid := by
      unfold getFileId
      rw [hcid]
    obtain ⟨ids, hsp⟩ := spineIdrefs_ok_of_resolvable reg spine
      (fun p hp => (hkey p).mpr (hspine p hp))
    obtain ⟨pts, cN, md, hnav⟩ := navBuildList_ok_of_resolvable reg (tocSizeList toc)
      toc le_rfl 1 1 (fun t ht => (hkey (stripFragment t)).mpr (htoc t ht))
    cases hmt : getMediaTypeFromFilename cov with
    | error e =>
      refine ⟨e, ?_, Or.inl ⟨cov, gmt_error_eq hmt⟩⟩
      simp only [createEntries, buildManifest, manifestWalk_eq_processFiles, hman,
        buildMetadataM, hgfc, buildSpine, hsp, buildTOC, hnav, buildCoverPage, hmt]
    | ok mt =>
      have hsw := himg mt hmt
      refine ⟨notAnImageMsg cov, ?_, Or.inr ⟨cov, rfl⟩⟩
      simp only [createEntries, buildManifest, manifestWalk_eq_processFiles, hman,
        buildMetadataM, hgfc, buildSpine, hsp, buildTOC, hnav, buildCoverPage, hmt, hsw]
      simp [hsw]

set_option maxHeartbeats 2000000 in
/-- C9 witness: a concrete build whose cover is the (non-image) walked
file `c.html` registers no archive entry and aborts with an
unsupported-content error. -/
theorem c9_cover_not_image_aborts_before_archive_witness :
    ∃ e, createEntries "root" (some "c.html") [] [] [] {} "u" "2020"
        [⟨"root", [], ["c.html"]⟩] = ([], some e) ∧ IsUnsupportedContentMsg e := by
  have h := c9_cover_not_image_aborts_before_archive "root" "c.html" [] [] [] {} "u" "2020"
    [⟨"root", [], ["c.html"]⟩]
  refine h.2 (by decide) (by decide) (fun p hp => absurd hp (List.not_mem_nil p)) ?_ ?_
  · intro t ht
    have hempty : tocTargetsList ([] : List TocNode) = [] := rfl
    rw [hempty] at ht
    cases ht
  · intro mt hmt
    have h2 : getMediaTypeFromFilename "c.html" = .ok "application/xhtml+xml" := rfl
    rw [h2] at hmt
    injection hmt with h3
    rw [← h3]
    decide

/-- C9 as universally stated is false: a build request whose cover
`c.html` is a walked non-image file but whose spine names a file missing
from the content tree fails with the unresolved-reference error (the
spine is built before the cover page), not with an unsupported-content
error. -/
theorem c9_counterexample :
    createEntries "root" (some "c.html") ["missing.html"] [] [] {} "u" "2020"
        [⟨"root", [], ["c.html"]⟩]
      = ([], some (fileNotFoundMsg "missing.html")) := by
  rfl
